import Mathlib

/-!
Shallow embedding of the mixer command-line front end
(`mixer/cmd/root.go` and the `add-rpms` command file) for checking its
specification.

Modelling conventions:
  * The environment's search path is abstracted as the list of program
    names that `exec.LookPath` resolves; `lookPath` is membership.
  * A command's position in the command tree is abstracted as its
    ancestor chain of declared-dependency lists (`externalDeps[cmd]`
    for the command itself first, then each ancestor up to the root);
    `checkCmdDeps` only reads those lists.
  * The dependency registry (the `externalDeps` map) is abstracted as
    the list of its values in map-iteration order; `checkAllDeps` only
    reads those.
  * Observable behaviour (profiling start/stop, printed lines, process
    exit) is recorded as a list of `Event`s.
  * Go's `fmt` format strings are applied before entering the model:
    functions taking a formatted message receive the result of the
    formatting.
-/

/-- Observable effects of a run: profiling lifecycle, stdout/stderr
lines, invoking a command's action, collaborator calls of the add-rpms
command, and process termination with an exit code. -/
inductive Event where
  | startProfile (dest : String)
  | stopProfile
  | printVersion
  | printLine (s : String)
  | errLine (s : String)
  | runAction
  | readDir (dir : String)
  | addRPMList
  | exitProc (code : Nat)
  deriving DecidableEq

/-- Result of `PersistentPreRunE`: either `os.Exit` was called inside the
hook, or the hook returned (with `none` for a nil error). -/
inductive PreOutcome where
  | exited (code : Nat)
  | returned (err : Option String)
  deriving DecidableEq

/-- The `rootCmdFlags` variable of root.go (lines 81-85). -/
structure RootFlags where
  version : Bool
  check : Bool
  cpuProfile : String

/-- Models `exec.LookPath` (root.go line 175, 207): a name resolves iff
it is among the resolvable names of the environment's search path. -/
def lookPath (env : List String) (name : String) : Bool :=
  env.contains name

/-- Models `sort.Strings` (root.go lines 167, 191): sort a list of
strings lexicographically. -/
def sortStrings (l : List String) : List String :=
  List.insertionSort (fun a b => a ≤ b) l

/-- The duplicate-skipping scan of the loops in `checkCmdDeps` (root.go
lines 170-174) and `checkAllDeps` (lines 202-206): an element equal to
the previously processed element (`deps[i] == deps[i-1]`) is skipped. -/
def dedupGo (prev : String) : List String → List String
  | [] => []
  | x :: xs => if x = prev then dedupGo prev xs else x :: dedupGo x xs

/-- Elements of `l` actually processed (not skipped as duplicates) by the
`i > 0 && deps[i] == deps[i-1]` loops of root.go. -/
def dedupAdj : List String → List String
  | [] => []
  | x :: xs => x :: dedupGo x xs

/-- The dependency-collection loop of `checkCmdDeps` (root.go lines
163-166): append the declared dependency lists along the ancestor
chain, command first, up to the root. -/
def chainDeps (chain : List (List String)) : List String :=
  chain.flatten

/-- The names `checkCmdDeps` actually checks: the chain's dependencies,
sorted (root.go line 167), with adjacent duplicates skipped (lines
170-174). -/
def checkedNames (chain : List (List String)) : List String :=
  dedupAdj (sortStrings (chainDeps chain))

/-- The `missing` list built by the loop of `checkCmdDeps` (root.go
lines 169-179): the checked names that `exec.LookPath` fails on, in
scan (sorted) order. -/
def missingDeps (env : List String) (chain : List (List String)) : List String :=
  (checkedNames chain).filter (fun d => !(lookPath env d))

/-- Models `checkCmdDeps` (root.go lines 162-184): `none` for a nil
error, `some msg` for the error built by `errors.Errorf`. -/
def checkCmdDeps (env : List String) (chain : List (List String)) : Option String :=
  let missing := missingDeps env chain
  if missing.length > 0 then
    some ("missing following external programs: " ++ String.intercalate ", " missing)
  else
    none

/-- Models `fail` (root.go lines 218-224): stop the CPU profile when a
profile destination is configured, write one ERROR line to stderr, and
exit with status 1. The error value's rendering is the string `msg`. -/
def fail (cpuProfile : String) (msg : String) : List Event :=
  (if cpuProfile = "" then [] else [Event.stopProfile])
    ++ [Event.errLine ("ERROR: " ++ msg), Event.exitProc 1]

/-- Models `failf` (root.go lines 226-229): write one ERROR line holding
the formatted message to stderr and exit with status 1. `failf` does
not read `rootCmdFlags.cpuProfile` and never stops the CPU profile. -/
def failf (msg : String) : List Event :=
  [Event.errLine ("ERROR: " ++ msg), Event.exitProc 1]

/-- The maximum-length loop of `checkAllDeps` (root.go lines 193-198). -/
def maxLen (l : List String) : Nat :=
  l.foldl (fun m d => if d.length > m then d.length else m) 0

/-- Go's `%-*s` padding: left-justify `s` in a field of `w` spaces. -/
def padRight (s : String) (w : Nat) : String :=
  s ++ String.mk (List.replicate (w - s.length) ' ')

/-- One line of the table printed by `checkAllDeps` (root.go lines
207-213) for a processed dependency name. -/
def depLine (env : List String) (w : Nat) (d : String) : String :=
  if lookPath env d then "  " ++ padRight d w ++ " ok"
  else "  " ++ padRight d w ++ " not found"

/-- The printing loop of `checkAllDeps` (root.go lines 201-214): walk the
sorted list, skip adjacent duplicates, print one line per processed
name, and accumulate the overall `ok` flag (cleared whenever a lookup
fails). Returns the printed lines and the final flag. -/
def depLines (env : List String) (w : Nat) (prev : String) :
    List String → List String × Bool
  | [] => ([], true)
  | d :: rest =>
    if d = prev then depLines env w prev rest
    else
      let r := depLines env w d rest
      if lookPath env d then (depLine env w d :: r.1, r.2)
      else (depLine env w d :: r.1, false)

/-- Models `checkAllDeps` (root.go lines 186-216) over the registry (the
values of the `externalDeps` map in iteration order): returns the
printed lines (header included) and the returned `ok` flag. -/
def checkAllDeps (env : List String) (registry : List (List String)) :
    List String × Bool :=
  let allDeps := sortStrings registry.flatten
  let w := maxLen allDeps
  match allDeps with
  | [] => (["Programs used by Mixer commands:"], true)
  | d :: rest =>
    let r :=
      if lookPath env d then
        let t := depLines env w d rest
        (depLine env w d :: t.1, t.2)
      else
        let t := depLines env w d rest
        (depLine env w d :: t.1, false)
    ("Programs used by Mixer commands:" :: r.1, r.2)

/-- The names processed (printed) by `checkAllDeps`: the registry's
dependency lists flattened, sorted, adjacent duplicates skipped. -/
def allCheckedNames (registry : List (List String)) : List String :=
  dedupAdj (sortStrings registry.flatten)

/-- The profiling acquisition at the top of `PersistentPreRunE` (root.go
lines 40-49): start a CPU profile when a destination is configured.
File creation and profile start are modelled as succeeding. -/
def profEvents (cpuProfile : String) : List Event :=
  if cpuProfile = "" then [] else [Event.startProfile cpuProfile]

/-- Models `RootCmd.PersistentPreRunE` (root.go lines 39-66): start
profiling if configured; on the root command (`cmd.Parent() == nil`,
modelled by `isRoot`) handle the version flag, then the check flag,
each exiting the process; otherwise return the result of
`checkCmdDeps` on the invoked command's ancestor chain. -/
def persistentPreRunE (flags : RootFlags) (isRoot : Bool)
    (env : List String) (registry : List (List String))
    (chain : List (List String)) : List Event × PreOutcome :=
  let prof := profEvents flags.cpuProfile
  if isRoot then
    if flags.version then
      (prof ++ [Event.printVersion], PreOutcome.exited 0)
    else if flags.check then
      let r := checkAllDeps env registry
      (prof ++ r.1.map Event.printLine,
        PreOutcome.exited (if r.2 then 0 else 1))
    else
      (prof, PreOutcome.returned (checkCmdDeps env chain))
  else
    (prof, PreOutcome.returned (checkCmdDeps env chain))

/-- Models one whole invocation: the dispatch contract of the cobra
library as used by root.go, around the hooks of `RootCmd`. The
dispatcher runs `PersistentPreRunE`; if the hook returns an error the
dispatcher stops (the command's `Run` action and `PersistentPostRun`
are not run), its `Execute` prints the error, and `Execute` in root.go
(lines 125-129) calls `os.Exit(1)`. On a nil error the action runs,
then `PersistentPostRun` (root.go lines 68-72) stops the profile if
configured, and the process ends normally with status 0. An `os.Exit`
inside the hook terminates at once. -/
def mixerExecute (flags : RootFlags) (isRoot : Bool)
    (env : List String) (registry : List (List String))
    (chain : List (List String)) : List Event :=
  match persistentPreRunE flags isRoot env registry chain with
  | (evs, PreOutcome.exited c) => evs ++ [Event.exitProc c]
  | (evs, PreOutcome.returned none) =>
    evs ++ [Event.runAction]
      ++ (if flags.cpuProfile = "" then [] else [Event.stopProfile])
      ++ [Event.exitProc 0]
  | (evs, PreOutcome.returned (some e)) =>
    evs ++ [Event.errLine ("Error: " ++ e), Event.exitProc 1]

/-- The builder collaborator's instance, restricted to the single field
the add-rpms command reads. -/
structure Builder where
  RPMdir : String

/-- Models `runAddRPM` (the add-rpms command file, lines 134-150
of the embedded source): construct the builder from the configuration
(`builder.NewFromConfig`, a collaborator call whose result is the
parameter `nfc`), fail on error; fail with `failf` when `RPMdir` is
empty; read the RPM directory (`ioutil.ReadDir`, result parameter
`rd`); pass the entries to the collaborator `AddRPMList` (error result
parameter `arl`). `cp` is the configured CPU-profile destination read
by `fail`. -/
def runAddRPM {α : Type} (cp : String) (nfc : Except String Builder)
    (rd : String → Except String (List α))
    (arl : List α → Option String) : List Event :=
  match nfc with
  | Except.error e => fail cp e
  | Except.ok b =>
    if b.RPMdir = "" then failf "RPMDIR not set in configuration"
    else
      Event.readDir b.RPMdir ::
        (match rd b.RPMdir with
        | Except.error e => failf ("cannot read RPMDIR: " ++ e)
        | Except.ok rpms =>
          Event.addRPMList ::
            (match arl rpms with
            | some e => fail cp e
            | none => []))

theorem mem_of_mem_dedupGo {x : String} :
    ∀ {p : String} {l : List String}, x ∈ dedupGo p l → x ∈ l := by
  intro p l
  induction l generalizing p with
  | nil => intro h; simp [dedupGo] at h
  | cons a t ih =>
    intro h
    simp only [dedupGo] at h
    by_cases hap : a = p
    · rw [if_pos hap] at h
      exact List.mem_cons_of_mem a (ih h)
    · rw [if_neg hap] at h
      rcases List.mem_cons.mp h with h1 | h2
      · subst h1; exact List.mem_cons_self x _
      · exact List.mem_cons_of_mem a (ih h2)

theorem mem_dedupGo_of_mem {x : String} :
    ∀ {p : String} {l : List String}, x ∈ l → x = p ∨ x ∈ dedupGo p l := by
  intro p l
  induction l generalizing p with
  | nil => intro h; cases h
  | cons a t ih =>
    intro h
    simp only [dedupGo]
    by_cases hap : a = p
    · rw [if_pos hap]
      rcases List.mem_cons.mp h with h1 | h2
      · exact Or.inl (h1.trans hap)
      · exact ih h2
    · rw [if_neg hap]
      rcases List.mem_cons.mp h with h1 | h2
      · subst h1; exact Or.inr (List.mem_cons_self x _)
      · rcases ih (p := a) h2 with h3 | h3
        · subst h3; exact Or.inr (List.mem_cons_self x _)
        · exact Or.inr (List.mem_cons_of_mem a h3)

theorem mem_dedupAdj {l : List String} {x : String} : x ∈ dedupAdj l ↔ x ∈ l := by
  cases l with
  | nil => simp [dedupAdj]
  | cons a t =>
    simp only [dedupAdj]
    constructor
    · intro h
      rcases List.mem_cons.mp h with h1 | h2
      · subst h1; exact List.mem_cons_self x _
      · exact List.mem_cons_of_mem a (mem_of_mem_dedupGo h2)
    · intro h
      rcases List.mem_cons.mp h with h1 | h2
      · subst h1; exact List.mem_cons_self x _
      · rcases mem_dedupGo_of_mem (p := a) h2 with h3 | h3
        · subst h3; exact List.mem_cons_self x _
        · exact List.mem_cons_of_mem a h3

theorem dedupGo_sublist : ∀ (p : String) (l : List String), List.Sublist (dedupGo p l) l := by
  intro p l
  induction l generalizing p with
  | nil => simp [dedupGo]
  | cons a t ih =>
    simp only [dedupGo]
    by_cases hap : a = p
    · rw [if_pos hap]; exact (ih p).cons a
    · rw [if_neg hap]; exact (ih a).cons₂ a

theorem dedupAdj_sublist : ∀ (l : List String), List.Sublist (dedupAdj l) l := by
  intro l
  cases l with
  | nil => simp [dedupAdj]
  | cons a t => exact (dedupGo_sublist a t).cons₂ a

theorem dedupGo_nodup : ∀ (p : String) (l : List String),
    List.Sorted (· ≤ ·) l → (∀ y ∈ l, p ≤ y) →
    (dedupGo p l).Nodup ∧ ∀ y ∈ dedupGo p l, y ≠ p := by
  intro p l
  induction l generalizing p with
  | nil => intro _ _; simp [dedupGo]
  | cons a t ih =>
    intro hs hp
    have hst : List.Sorted (· ≤ ·) t := hs.of_cons
    have hat : ∀ y ∈ t, a ≤ y := fun y hy => (List.sorted_cons.mp hs).1 y hy
    have hpa : p ≤ a := hp a (List.mem_cons_self a t)
    simp only [dedupGo]
    by_cases hap : a = p
    · rw [if_pos hap]
      exact ih p hst (fun y hy => le_trans hpa (hat y hy))
    · rw [if_neg hap]
      obtain ⟨nd, hne⟩ := ih a hst hat
      refine ⟨List.nodup_cons.mpr ⟨fun h => hne a h rfl, nd⟩, ?_⟩
      intro y hy
      rcases List.mem_cons.mp hy with h1 | h2
      · subst h1; exact hap
      · have hyt : y ∈ t := mem_of_mem_dedupGo h2
        have hplt : p < a := lt_of_le_of_ne hpa (fun h => hap h.symm)
        exact ne_of_gt (lt_of_lt_of_le hplt (hat y hyt))

theorem dedupAdj_nodup {l : List String} (hs : List.Sorted (· ≤ ·) l) :
    (dedupAdj l).Nodup := by
  cases l with
  | nil => simp [dedupAdj]
  | cons a t =>
    simp only [dedupAdj]
    obtain ⟨nd, hne⟩ :=
      dedupGo_nodup a t hs.of_cons (fun y hy => (List.sorted_cons.mp hs).1 y hy)
    exact List.nodup_cons.mpr ⟨fun h => hne a h rfl, nd⟩

theorem dedupAdj_sorted {l : List String} (hs : List.Sorted (· ≤ ·) l) :
    List.Sorted (· ≤ ·) (dedupAdj l) :=
  List.Pairwise.sublist (dedupAdj_sublist l) hs

theorem sortStrings_sorted (l : List String) : List.Sorted (· ≤ ·) (sortStrings l) :=
  List.sorted_insertionSort _ l

theorem sortStrings_perm (l : List String) : List.Perm (sortStrings l) l :=
  List.perm_insertionSort _ l

theorem sortStrings_eq_of_perm {l₁ l₂ : List String} (h : List.Perm l₁ l₂) :
    sortStrings l₁ = sortStrings l₂ :=
  List.eq_of_perm_of_sorted ((sortStrings_perm l₁).trans (h.trans (sortStrings_perm l₂).symm))
    (sortStrings_sorted l₁) (sortStrings_sorted l₂)

theorem mem_checkedNames {chain : List (List String)} {x : String} :
    x ∈ checkedNames chain ↔ x ∈ chainDeps chain := by
  unfold checkedNames
  rw [mem_dedupAdj]
  exact (sortStrings_perm (chainDeps chain)).mem_iff

theorem checkedNames_sorted (chain : List (List String)) :
    List.Sorted (· ≤ ·) (checkedNames chain) :=
  dedupAdj_sorted (sortStrings_sorted (chainDeps chain))

theorem checkedNames_nodup (chain : List (List String)) :
    (checkedNames chain).Nodup :=
  dedupAdj_nodup (sortStrings_sorted (chainDeps chain))

theorem checkedNames_eq_of_perm {c₁ c₂ : List (List String)}
    (h : List.Perm (chainDeps c₁) (chainDeps c₂)) :
    checkedNames c₁ = checkedNames c₂ := by
  unfold checkedNames
  rw [sortStrings_eq_of_perm h]

theorem depLines_eq (env : List String) (w : Nat) :
    ∀ (p : String) (l : List String),
    depLines env w p l =
      ((dedupGo p l).map (depLine env w), (dedupGo p l).all (lookPath env)) := by
  intro p l
  induction l generalizing p with
  | nil => simp [depLines, dedupGo]
  | cons d rest ih =>
    simp only [depLines, dedupGo]
    by_cases hdp : d = p
    · subst hdp
      simp only [if_pos rfl]
      exact ih d
    · rw [if_neg hdp, if_neg hdp]
      by_cases hl : lookPath env d
      · simp [hl, ih d]
      · simp [hl, ih d]

theorem checkAllDeps_eq (env : List String) (registry : List (List String)) :
    checkAllDeps env registry =
      ("Programs used by Mixer commands:" ::
        (allCheckedNames registry).map
          (depLine env (maxLen (sortStrings registry.flatten))),
       (allCheckedNames registry).all (lookPath env)) := by
  unfold checkAllDeps allCheckedNames
  cases hs : sortStrings registry.flatten with
  | nil => simp [dedupAdj]
  | cons d rest =>
    simp only [dedupAdj]
    by_cases hl : lookPath env d
    · simp [hl, depLines_eq]
    · simp [hl, depLines_eq]

theorem foldl_maxLen_init_le : ∀ (l : List String) (m : Nat),
    m ≤ l.foldl (fun acc d => if d.length > acc then d.length else acc) m := by
  intro l
  induction l with
  | nil => intro m; simp
  | cons a t ih =>
    intro m
    simp only [List.foldl_cons]
    refine le_trans ?_ (ih (if a.length > m then a.length else m))
    split <;> omega

theorem length_le_maxLen_foldl : ∀ (l : List String) (m : Nat) (d : String), d ∈ l →
    d.length ≤ l.foldl (fun acc x => if x.length > acc then x.length else acc) m := by
  intro l
  induction l with
  | nil => intro m d h; cases h
  | cons a t ih =>
    intro m d h
    simp only [List.foldl_cons]
    rcases List.mem_cons.mp h with h1 | h2
    · subst h1
      refine le_trans ?_ (foldl_maxLen_init_le t _)
      split <;> omega
    · exact ih _ d h2

theorem length_le_maxLen {l : List String} {d : String} (h : d ∈ l) :
    d.length ≤ maxLen l :=
  length_le_maxLen_foldl l 0 d h

theorem padRight_length {s : String} {w : Nat} (h : s.length ≤ w) :
    (padRight s w).length = w := by
  unfold padRight
  simp only [String.length_append, String.length_mk, List.length_replicate]
  omega

theorem allCheckedNames_eq_checkedNames (r : List (List String)) :
    allCheckedNames r = checkedNames r := rfl

/-- Claim C3: the set of names checked by `checkCmdDeps` equals the
deduplicated union of the command's declared dependencies and those of
all its ancestors: membership agrees with the flattened ancestor
chain, each name present in the chain is checked exactly once no
matter how often it is declared, and the checked list is invariant
under any reordering of the declarations; the global name set of
`checkAllDeps` has the same membership, exactly-once and
order-independence properties over the whole registry. -/
theorem checkCmdDeps_checked_set (chain registry : List (List String)) :
    ((∀ x, x ∈ checkedNames chain ↔ x ∈ chainDeps chain)
      ∧ (∀ x, x ∈ chainDeps chain → (checkedNames chain).count x = 1)
      ∧ (∀ c₂ : List (List String), List.Perm (chainDeps c₂) (chainDeps chain) →
          checkedNames c₂ = checkedNames chain))
    ∧ ((∀ x, x ∈ allCheckedNames registry ↔ x ∈ registry.flatten)
      ∧ (∀ x, x ∈ registry.flatten → (allCheckedNames registry).count x = 1)
      ∧ (∀ r₂ : List (List String), List.Perm r₂.flatten registry.flatten →
          allCheckedNames r₂ = allCheckedNames registry)) := by
  refine ⟨⟨fun x => mem_checkedNames, fun x hx => ?_, fun c₂ h => checkedNames_eq_of_perm h⟩,
    ⟨fun x => mem_checkedNames, fun x hx => ?_, fun r₂ h => checkedNames_eq_of_perm h⟩⟩
  · exact List.count_eq_one_of_mem (checkedNames_nodup chain) (mem_checkedNames.mpr hx)
  · exact List.count_eq_one_of_mem (checkedNames_nodup registry) (mem_checkedNames.mpr hx)

theorem checkCmdDeps_checked_set_witness :
    (("git" : String) ∈ chainDeps [["git"], ["git"]]
      ∧ (checkedNames [["git"], ["git"]]).count "git" = 1
      ∧ List.Perm (chainDeps [["git", "git"]]) (chainDeps [["git"], ["git"]])
      ∧ checkedNames [["git", "git"]] = checkedNames [["git"], ["git"]])
    ∧ (("hardlink" : String) ∈ List.flatten [["hardlink"], ["hardlink"]]
      ∧ (allCheckedNames [["hardlink"], ["hardlink"]]).count "hardlink" = 1
      ∧ allCheckedNames [["hardlink", "hardlink"]]
          = allCheckedNames [["hardlink"], ["hardlink"]]) := by
  have h := checkCmdDeps_checked_set [["git"], ["git"]] [["hardlink"], ["hardlink"]]
  exact ⟨⟨by decide, h.1.2.1 "git" (by decide), by decide,
      h.1.2.2 [["git", "git"]] (by decide)⟩,
    ⟨by decide, h.2.2.1 "hardlink" (by decide),
      h.2.2.2 [["hardlink", "hardlink"]] (by decide)⟩⟩

/-- Claim C4: verification of the checked dependency set against the
environment returns exactly the subset of names that do not resolve,
and for a command whose ancestor-chain dependency set is empty
`checkCmdDeps` returns no error and the command's action runs. -/
theorem verify_exact_subset (env : List String) (chain : List (List String))
    (flags : RootFlags) (registry : List (List String)) :
    (∀ x, x ∈ missingDeps env chain ↔ x ∈ checkedNames chain ∧ lookPath env x = false)
    ∧ (chainDeps chain = [] →
        missingDeps env chain = [] ∧ checkCmdDeps env chain = none
          ∧ Event.runAction ∈ mixerExecute flags false env registry chain) := by
  constructor
  · intro x
    simp [missingDeps, List.mem_filter]
  · intro h
    have hempty : checkedNames chain = [] := by
      unfold checkedNames
      rw [h]
      rfl
    have hmiss : missingDeps env chain = [] := by
      unfold missingDeps
      rw [hempty]
      rfl
    have hcmd : checkCmdDeps env chain = none := by
      unfold checkCmdDeps
      rw [hmiss]
      rfl
    refine ⟨hmiss, hcmd, ?_⟩
    simp [mixerExecute, persistentPreRunE, hcmd]

theorem verify_exact_subset_witness :
    chainDeps ([] : List (List String)) = []
    ∧ (missingDeps [] [] = [] ∧ checkCmdDeps [] [] = none
        ∧ Event.runAction ∈ mixerExecute ⟨false, false, ""⟩ false [] [] []) :=
  ⟨rfl, (verify_exact_subset [] [] ⟨false, false, ""⟩ []).2 rfl⟩

/-- Claim C5: `checkCmdDeps` returns an error iff some name of the
deduplicated ancestor-chain dependency set fails to resolve; the
`missing` list of the error holds exactly the unresolved checked
names, is sorted lexicographically and duplicate-free, and the error
message is that list joined with ", " after the fixed prefix. -/
theorem checkCmdDeps_error_message (env : List String) (chain : List (List String)) :
    ((checkCmdDeps env chain).isSome
        ↔ ∃ x, x ∈ checkedNames chain ∧ lookPath env x = false)
    ∧ List.Sorted (· ≤ ·) (missingDeps env chain)
    ∧ (missingDeps env chain).Nodup
    ∧ (∀ x, x ∈ missingDeps env chain ↔ x ∈ checkedNames chain ∧ lookPath env x = false)
    ∧ ((checkCmdDeps env chain).isSome →
        checkCmdDeps env chain =
          some ("missing following external programs: "
            ++ String.intercalate ", " (missingDeps env chain))) := by
  have hmem : ∀ x, x ∈ missingDeps env chain ↔ x ∈ checkedNames chain ∧ lookPath env x = false := by
    intro x
    simp [missingDeps, List.mem_filter]
  have hsome : (checkCmdDeps env chain).isSome ↔ missingDeps env chain ≠ [] := by
    unfold checkCmdDeps
    by_cases h : (missingDeps env chain).length > 0
    · simp only [if_pos h, Option.isSome_some, true_iff]
      intro hnil
      rw [hnil] at h
      exact absurd h (by simp)
    · have hz : missingDeps env chain = [] :=
        List.eq_nil_of_length_eq_zero (by omega)
      simp [if_neg h, hz]
  refine ⟨?_, ?_, ?_, hmem, ?_⟩
  · rw [hsome]
    constructor
    · intro h
      match hm : missingDeps env chain with
      | [] => exact absurd hm h
      | y :: t =>
        have : y ∈ missingDeps env chain := by rw [hm]; exact List.mem_cons_self y t
        exact ⟨y, (hmem y).mp this⟩
    · intro ⟨x, hx⟩ hnil
      have : x ∈ missingDeps env chain := (hmem x).mpr hx
      rw [hnil] at this
      cases this
  · exact List.Pairwise.filter _ (checkedNames_sorted chain)
  · exact List.Nodup.filter _ (checkedNames_nodup chain)
  · intro h
    rw [hsome] at h
    have hlen : (missingDeps env chain).length > 0 := by
      cases hm : missingDeps env chain with
      | nil => exact absurd hm h
      | cons y t => simp
    simp only [checkCmdDeps]
    rw [if_pos hlen]

theorem checkCmdDeps_error_message_witness :
    ((checkCmdDeps [] [["git"]]).isSome
      ∧ checkCmdDeps [] [["git"]] =
          some ("missing following external programs: "
            ++ String.intercalate ", " (missingDeps [] [["git"]])))
    ∧ List.Sorted (· ≤ ·) (missingDeps [] [["git"]])
    ∧ (missingDeps [] [["git"]]).Nodup := by
  have h := checkCmdDeps_error_message [] [["git"]]
  exact ⟨⟨by decide, h.2.2.2.2 (by decide)⟩, h.2.1, h.2.2.1⟩

/-- Claim C6: on the root command, the version flag and the check flag
each run their query and exit the process (status 0 for version, the
check's pass/fail status for the check) before any per-command
dependency verification: the resulting behaviour does not depend on
the invoked chain's dependencies, and the version query does not even
depend on the environment, so both queries execute when every declared
tool is missing. -/
theorem version_check_bypass (cp : String) (c : Bool) (env : List String)
    (registry chain : List (List String)) :
    persistentPreRunE ⟨true, c, cp⟩ true env registry chain
        = (profEvents cp ++ [Event.printVersion], PreOutcome.exited 0)
    ∧ persistentPreRunE ⟨false, true, cp⟩ true env registry chain
        = (profEvents cp ++ (checkAllDeps env registry).1.map Event.printLine,
            PreOutcome.exited (if (checkAllDeps env registry).2 then 0 else 1))
    ∧ mixerExecute ⟨true, c, cp⟩ true env registry chain
        = profEvents cp ++ [Event.printVersion, Event.exitProc 0]
    ∧ mixerExecute ⟨false, true, cp⟩ true env registry chain
        = profEvents cp ++ (checkAllDeps env registry).1.map Event.printLine
            ++ [Event.exitProc (if (checkAllDeps env registry).2 then 0 else 1)] := by
  refine ⟨by simp [persistentPreRunE], by simp [persistentPreRunE], ?_, ?_⟩
  · simp [mixerExecute, persistentPreRunE]
  · simp [mixerExecute, persistentPreRunE]

/-- Claim C7: global check mode prints the header and then one line per
registered tool name, each distinct name exactly once, in
lexicographic order, independent of the registry's map-iteration
order; each line pads the name to the length of the longest registered
name and marks it "ok" or "not found" according to the lookup; the
returned flag is true iff every name resolves, and the root pre-run
hook exits with status 0 on a true flag and 1 otherwise. -/
theorem checkAllDeps_table (cp : String) (env : List String)
    (registry chain : List (List String)) :
    (checkAllDeps env registry).1
        = "Programs used by Mixer commands:" ::
            (allCheckedNames registry).map
              (depLine env (maxLen (sortStrings registry.flatten)))
    ∧ (∀ x, x ∈ allCheckedNames registry ↔ x ∈ registry.flatten)
    ∧ (∀ x, x ∈ registry.flatten → (allCheckedNames registry).count x = 1)
    ∧ List.Sorted (· ≤ ·) (allCheckedNames registry)
    ∧ (∀ d, d ∈ allCheckedNames registry →
        (padRight d (maxLen (sortStrings registry.flatten))).length
          = maxLen (sortStrings registry.flatten))
    ∧ (checkAllDeps env registry).2 = (allCheckedNames registry).all (lookPath env)
    ∧ (∀ r₂ : List (List String), List.Perm r₂.flatten registry.flatten →
        checkAllDeps env r₂ = checkAllDeps env registry)
    ∧ persistentPreRunE ⟨false, true, cp⟩ true env registry chain
        = (profEvents cp ++ (checkAllDeps env registry).1.map Event.printLine,
           PreOutcome.exited (if (checkAllDeps env registry).2 then 0 else 1)) := by
  refine ⟨by rw [checkAllDeps_eq], fun x => mem_checkedNames, ?_, checkedNames_sorted registry,
    ?_, by rw [checkAllDeps_eq], ?_, by simp [persistentPreRunE]⟩
  · intro x hx
    exact List.count_eq_one_of_mem (checkedNames_nodup registry) (mem_checkedNames.mpr hx)
  · intro d hd
    have hds : d ∈ sortStrings registry.flatten := mem_dedupAdj.mp hd
    exact padRight_length (length_le_maxLen hds)
  · intro r₂ h
    have hsort : sortStrings r₂.flatten = sortStrings registry.flatten :=
      sortStrings_eq_of_perm h
    rw [checkAllDeps_eq, checkAllDeps_eq]
    unfold allCheckedNames
    rw [hsort]

theorem checkAllDeps_table_witness :
    (("git" : String) ∈ List.flatten [["git"]]
      ∧ (allCheckedNames [["git"]]).count "git" = 1)
    ∧ (("git" : String) ∈ allCheckedNames [["git"]]
      ∧ (padRight "git" (maxLen (sortStrings (List.flatten [["git"]])))).length
          = maxLen (sortStrings (List.flatten [["git"]])))
    ∧ (List.Perm (List.flatten [[], ["git"]]) (List.flatten [["git"]])
      ∧ checkAllDeps ["git"] [[], ["git"]] = checkAllDeps ["git"] [["git"]]) := by
  have h := checkAllDeps_table "" ["git"] [["git"]] []
  exact ⟨⟨by decide, h.2.2.1 "git" (by decide)⟩,
    ⟨by decide, h.2.2.2.2.1 "git" (by decide)⟩,
    ⟨by decide, h.2.2.2.2.2.2.1 [[], ["git"]] (by decide)⟩⟩

/-- Claim C8: when the ancestor-chain dependency check of the invoked
command finds a non-empty missing set, the run emits a formatted error
line and terminates with exit status 1, and the command's action is
never invoked. -/
theorem missing_dep_abort (flags : RootFlags) (env : List String)
    (registry chain : List (List String)) (h : missingDeps env chain ≠ []) :
    mixerExecute flags false env registry chain
      = profEvents flags.cpuProfile
        ++ [Event.errLine ("Error: " ++ ("missing following external programs: "
              ++ String.intercalate ", " (missingDeps env chain))),
            Event.exitProc 1]
    ∧ Event.runAction ∉ mixerExecute flags false env registry chain := by
  have hlen : (missingDeps env chain).length > 0 := by
    cases hm : missingDeps env chain with
    | nil => exact absurd hm h
    | cons y t => simp
  have hcmd : checkCmdDeps env chain
      = some ("missing following external programs: "
          ++ String.intercalate ", " (missingDeps env chain)) := by
    simp only [checkCmdDeps]
    rw [if_pos hlen]
  constructor
  · simp [mixerExecute, persistentPreRunE, hcmd]
  · simp only [mixerExecute, persistentPreRunE, hcmd]
    by_cases hcp : flags.cpuProfile = "" <;> simp [profEvents, hcp]

theorem missing_dep_abort_witness :
    missingDeps [] [["git"]] ≠ []
    ∧ (mixerExecute ⟨false, false, "prof.out"⟩ false [] [] [["git"]]
        = profEvents "prof.out"
          ++ [Event.errLine ("Error: " ++ ("missing following external programs: "
                ++ String.intercalate ", " (missingDeps [] [["git"]]))),
              Event.exitProc 1]
      ∧ Event.runAction ∉ mixerExecute ⟨false, false, "prof.out"⟩ false [] [] [["git"]]) :=
  ⟨by decide, missing_dep_abort ⟨false, false, "prof.out"⟩ [] [] [["git"]] (by decide)⟩

/-- Claim C9: with both the version flag and the check flag set on the
root command, the version query wins: the pre-run hook prints the
version line and exits with status 0, and no line of the global-check
table is printed. -/
theorem version_precedence (cp : String) (env : List String)
    (registry chain : List (List String)) :
    persistentPreRunE ⟨true, true, cp⟩ true env registry chain
        = (profEvents cp ++ [Event.printVersion], PreOutcome.exited 0)
    ∧ mixerExecute ⟨true, true, cp⟩ true env registry chain
        = profEvents cp ++ [Event.printVersion, Event.exitProc 0]
    ∧ (∀ s, Event.printLine s ∉ mixerExecute ⟨true, true, cp⟩ true env registry chain) := by
  refine ⟨by simp [persistentPreRunE], by simp [mixerExecute, persistentPreRunE], ?_⟩
  intro s
  simp only [mixerExecute, persistentPreRunE]
  by_cases hcp : cp = "" <;> simp [profEvents, hcp]

/-- Claim C1 counterexample: `failf` does not release the profiling
scope. Its effect trace is exactly one diagnostic line followed by
exit status 1, with no `stopProfile` effect — `failf` never reads the
configured CPU-profile destination at all — refuting the claim that
both `fail` and `failf` stop an active CPU profile before
terminating. -/
theorem failf_keeps_profile_cex :
    failf "boom" = [Event.errLine "ERROR: boom", Event.exitProc 1]
    ∧ Event.stopProfile ∉ failf "boom"
    ∧ fail "prof.out" "boom"
        = [Event.stopProfile, Event.errLine "ERROR: boom", Event.exitProc 1] := by
  decide

/-- Claim C1 amended: `fail` releases any active ProfilingScope (stops
the CPU profile when a destination is configured) before writing its
single diagnostic line and terminating with status 1; `failf` writes
its single diagnostic line and terminates with status 1 without
releasing the ProfilingScope. -/
theorem fail_failf_exit_protocol (cp msg : String) (h : cp ≠ "") :
    fail cp msg
        = [Event.stopProfile, Event.errLine ("ERROR: " ++ msg), Event.exitProc 1]
    ∧ failf msg = [Event.errLine ("ERROR: " ++ msg), Event.exitProc 1]
    ∧ Event.stopProfile ∉ failf msg := by
  refine ⟨by simp [fail, h], rfl, by simp [failf]⟩

theorem fail_failf_exit_protocol_witness :
    ("prof.out" : String) ≠ ""
    ∧ (fail "prof.out" "boom"
        = [Event.stopProfile, Event.errLine ("ERROR: " ++ "boom"), Event.exitProc 1]
      ∧ failf "boom" = [Event.errLine ("ERROR: " ++ "boom"), Event.exitProc 1]
      ∧ Event.stopProfile ∉ failf "boom") :=
  ⟨by decide, fail_failf_exit_protocol "prof.out" "boom" (by decide)⟩

/-- Claim C2 counterexample: with a CPU-profile destination configured
and a missing dependency, a run starts the profile, terminates with
exit status 1, and never stops the capture: the dispatcher skips
`PersistentPostRun` when `PersistentPreRunE` returns an error, and the
abort path does not go through `fail`. This refutes the claim that the
capture is stopped before a missing-dependency exit. -/
theorem missing_dep_dangling_capture_cex :
    Event.startProfile "prof.out"
        ∈ mixerExecute ⟨false, false, "prof.out"⟩ false [] [] [["git"]]
    ∧ Event.exitProc 1 ∈ mixerExecute ⟨false, false, "prof.out"⟩ false [] [] [["git"]]
    ∧ Event.stopProfile ∉ mixerExecute ⟨false, false, "prof.out"⟩ false [] [] [["git"]] := by
  decide

/-- Claim C2 amended: for every command and environment, if profiling
is enabled and the dependency check before the command's action finds
a missing external program, the process terminates with status 1
leaving the capture live: the trace starts the profile and exits
without ever stopping it. -/
theorem missing_dep_dangling_capture (cp : String) (env : List String)
    (registry chain : List (List String)) (hcp : cp ≠ "")
    (h : missingDeps env chain ≠ []) :
    mixerExecute ⟨false, false, cp⟩ false env registry chain
      = [Event.startProfile cp,
         Event.errLine ("Error: " ++ ("missing following external programs: "
            ++ String.intercalate ", " (missingDeps env chain))),
         Event.exitProc 1]
    ∧ Event.stopProfile ∉ mixerExecute ⟨false, false, cp⟩ false env registry chain := by
  have hlen : (missingDeps env chain).length > 0 := by
    cases hm : missingDeps env chain with
    | nil => exact absurd hm h
    | cons y t => simp
  have hcmd : checkCmdDeps env chain
      = some ("missing following external programs: "
          ++ String.intercalate ", " (missingDeps env chain)) := by
    simp only [checkCmdDeps]
    rw [if_pos hlen]
  constructor
  · simp [mixerExecute, persistentPreRunE, hcmd, profEvents, hcp]
  · simp [mixerExecute, persistentPreRunE, hcmd, profEvents, hcp]

theorem missing_dep_dangling_capture_witness :
    (("prof.out" : String) ≠ "" ∧ missingDeps [] [["git"]] ≠ [])
    ∧ (mixerExecute ⟨false, false, "prof.out"⟩ false [] [] [["git"]]
        = [Event.startProfile "prof.out",
           Event.errLine ("Error: " ++ ("missing following external programs: "
              ++ String.intercalate ", " (missingDeps [] [["git"]]))),
           Event.exitProc 1]
      ∧ Event.stopProfile ∉ mixerExecute ⟨false, false, "prof.out"⟩ false [] [] [["git"]]) :=
  ⟨⟨by decide, by decide⟩,
    missing_dep_dangling_capture "prof.out" [] [] [["git"]] (by decide) (by decide)⟩

/-- Claim C10: after the builder is successfully constructed, the
add-rpms action with an empty configured RPM directory terminates with
status 1 and the diagnostic "RPMDIR not set in configuration", without
reading any directory and without calling the add-rpm-list
collaborator. -/
theorem addRPM_empty_rpmdir {α : Type} (cp : String)
    (rd : String → Except String (List α)) (arl : List α → Option String)
    (b : Builder) (h : b.RPMdir = "") :
    runAddRPM cp (Except.ok b) rd arl
      = [Event.errLine "ERROR: RPMDIR not set in configuration", Event.exitProc 1]
    ∧ (∀ d, Event.readDir d ∉ runAddRPM cp (Except.ok b) rd arl)
    ∧ Event.addRPMList ∉ runAddRPM cp (Except.ok b) rd arl := by
  have hrun : runAddRPM cp (Except.ok b) rd arl
      = failf "RPMDIR not set in configuration" := by
    simp [runAddRPM, h]
  refine ⟨?_, ?_, ?_⟩ <;> simp [hrun, failf]

theorem addRPM_empty_rpmdir_witness :
    (Builder.mk "").RPMdir = ""
    ∧ (runAddRPM "" (Except.ok (Builder.mk ""))
          (fun _ => Except.ok ([] : List String)) (fun _ => none)
        = [Event.errLine "ERROR: RPMDIR not set in configuration", Event.exitProc 1]
      ∧ (∀ d, Event.readDir d ∉ runAddRPM "" (Except.ok (Builder.mk ""))
          (fun _ => Except.ok ([] : List String)) (fun _ => none))
      ∧ Event.addRPMList ∉ runAddRPM "" (Except.ok (Builder.mk ""))
          (fun _ => Except.ok ([] : List String)) (fun _ => none)) :=
  ⟨rfl, addRPM_empty_rpmdir "" (fun _ => Except.ok ([] : List String)) (fun _ => none)
    (Builder.mk "") rfl⟩
